import Mathlib

/-!
Verification development for the autonomous trader server.

The JavaScript source is shallowly embedded here:

* `src/binance.js` — the quantizer `roundToStep`, the validation routine
  `validateTrade`, the routing/validation pipeline of `executeTradeInternal`,
  and the query-string builders of every authenticated call site.
* the server file (`src/unnamed/part_000`) — the schedule evaluator inside
  `runTradeCycle` (interval and daily types) and the write-then-work ordering
  of the per-account cycle, modelled as a small interleaving machine.

JavaScript numbers are embedded as exact rationals (`ℚ`), millisecond
timestamps as integers (`ℤ`).  Fallible code returns `Except`.  External
collaborators (the exchange, the settings store, the HMAC primitive from the
crypto library) enter as explicit parameters.
-/

namespace Trader

/-! ### Quantizer: `roundToStep` from src/binance.js lines 82-86

`roundToStep(value, stepSize)` computes
`Math.floor(value / stepSize) * stepSize` and formats it with
`precision = Math.max(0, Math.round(-Math.log10(stepSize)))` decimal places
via `Number.prototype.toFixed`.  The embedding mirrors each ingredient over
exact rationals. -/

/-- Decimal digit character for a value d (only d % 10 matters), as produced
by JavaScript number formatting. -/
def digitCh (d : ℕ) : Char := Nat.digitChar (d % 10)

/-- The full stop character used as the decimal point. -/
def dotChar : Char := Char.ofNat 46

/-- The minus sign character. -/
def minusChar : Char := Char.ofNat 45

/-- Fixed-width decimal rendering of m using exactly f digits, most
significant first, left-padded with zeros. -/
def natDigitsStr : ℕ → ℕ → String
  | _, 0 => ""
  | m, f + 1 => natDigitsStr (m / 10) f ++ String.singleton (digitCh m)

/-- Fuel-based count of decimal digits of n (1 for n = 0), used to render the
integer part of a formatted number. -/
def natLenAux : ℕ → ℕ → ℕ
  | 0, _ => 1
  | fuel + 1, n => if n < 10 then 1 else natLenAux fuel (n / 10) + 1

/-- Number of decimal digits of n (1 for n = 0). -/
def natLen (n : ℕ) : ℕ := natLenAux n n

/-- Decimal numeral of a natural number, as JavaScript renders the integer
part of a number. -/
def natNumeral (n : ℕ) : String := natDigitsStr n (natLen n)

/-- ECMAScript `toFixed` rounding for a nonnegative value y: the integer
nearest y * 10 ^ f, a tie going to the larger integer. -/
def jsFixedNat (y : ℚ) (f : ℕ) : ℕ := (⌊y * 10 ^ f + 1 / 2⌋).toNat

/-- String produced by `toFixed(f)` on a nonnegative value. -/
def posFixedStr (y : ℚ) (f : ℕ) : String :=
  if f = 0 then natNumeral (jsFixedNat y f)
  else
    natNumeral (jsFixedNat y f / 10 ^ f) ++ String.singleton dotChar ++
      natDigitsStr (jsFixedNat y f % 10 ^ f) f

/-- ECMAScript `x.toFixed(f)`: a negative x is rendered as the minus sign
followed by the rendering of -x. -/
def jsToFixed (x : ℚ) (f : ℕ) : String :=
  if x < 0 then String.singleton minusChar ++ posFixedStr (-x) f else posFixedStr x f

/-- Numeric value denoted by the string `x.toFixed(f)` (what `parseFloat`
recovers from it). -/
def jsToFixedVal (x : ℚ) (f : ℕ) : ℚ :=
  if x < 0 then -((jsFixedNat (-x) f : ℚ) / 10 ^ f) else (jsFixedNat x f : ℚ) / 10 ^ f

/-- The precision `Math.max(0, Math.round(-Math.log10(stepSize)))` of
src/binance.js line 83.  For a rational step, `round(-log10 step)` equals
`⌊(⌊log10 (step⁻¹ ^ 2)⌋ + 1) / 2⌋` (halving the floor of the base-10
logarithm of the square realises the half-unit shift of rounding; no tie can
occur at a rational step since 10 ^ (k + 1/2) is irrational), and
`Int.log 10` is exactly that floor of the real logarithm. -/
def jsPrecision (stepSize : ℚ) : ℕ :=
  ((Int.log 10 ((stepSize⁻¹) ^ 2) + 1).fdiv 2).toNat

/-- `roundToStep` of src/binance.js lines 82-86: floor the ratio, multiply
back, format with the step-derived precision. -/
def roundToStep (value stepSize : ℚ) : String :=
  jsToFixed (⌊value / stepSize⌋ * stepSize) (jsPrecision stepSize)

/-- Numeric value of the string returned by `roundToStep` (what the caller
obtains after `parseFloat`). -/
def roundToStepVal (value stepSize : ℚ) : ℚ :=
  jsToFixedVal (⌊value / stepSize⌋ * stepSize) (jsPrecision stepSize)

/-- Helper for `decimalPlaces`: walking a reversed character list, the number
of characters strictly before the first decimal point, if any. -/
def decimalPlacesAux : List Char → Option ℕ
  | [] => none
  | c :: cs => if c = dotChar then some 0 else (decimalPlacesAux cs).map (· + 1)

/-- Number of decimal places of a formatted number string: the count of
characters after the last decimal point, 0 when there is none. -/
def decimalPlaces (s : String) : ℕ := (decimalPlacesAux s.data.reverse).getD 0

/-! ### Trade router and pre-submission validation
from `executeTradeInternal` and `validateTrade` in src/binance.js.

The exchange-supplied inputs (current position amount, step size, market
price, balances) are parameters; `executeTradeInternal` obtains them through
HTTP calls before the logic embedded here runs. -/

/-- Validation and routing failures of src/binance.js, by throw site. -/
inductive TradeError where
  | invalidQuantity
  | priceUnavailable
  | noPositionToClose
  | belowMinimumNotional
  | insufficientBalance
  deriving DecidableEq

/-- One entry of the balances list (asset name and free amount) as consumed
by `validateTrade`. -/
structure Balance where
  asset : String
  free : ℚ
  deriving DecidableEq

/-- The order parameters decided by the routing section of
`executeTradeInternal` (src/binance.js lines 245-287). -/
structure RoutedOrder where
  side : String
  orderType : String
  quantity : ℚ
  isClosing : Bool
  deriving DecidableEq

/-- JavaScript `toUpperCase` over the embedded string (ASCII case map). -/
def jsToUpperCase (s : String) : String := String.mk (s.data.map Char.toUpper)

/-- JavaScript `String.prototype.startsWith` on embedded strings. -/
def strStartsWith (s pre : String) : Bool := s.data.take pre.data.length == pre.data

/-- Line 246: `trade.action.toUpperCase().startsWith('BUY') ? 'BUY' : 'SELL'`. -/
def requestedSide (action : String) : String :=
  if strStartsWith (jsToUpperCase action) "BUY" then "BUY" else "SELL"

/-- The high-liquidity allow-list of src/binance.js line 122. -/
def highValueSymbols : List String := ["BTCUSDT", "ETHUSDT", "BNBUSDT"]

/-- Routing section of `executeTradeInternal` (lines 245-276): explicit CLOSE
uses the side opposite to the position and its absolute amount; otherwise the
requested side and proposal quantity are kept and the order is flagged as
closing when it reduces the current position. -/
def route (action : String) (quantity posAmt : ℚ) : Except TradeError RoutedOrder :=
  if action = "CLOSE" then
    if posAmt ≠ 0 then
      Except.ok ⟨if 0 < posAmt then "SELL" else "BUY", "MARKET", |posAmt|, true⟩
    else
      Except.error TradeError.noPositionToClose
  else
    Except.ok ⟨requestedSide action, "MARKET", quantity,
      decide ((requestedSide action = "SELL" ∧ 0 < posAmt) ∨
        (requestedSide action = "BUY" ∧ posAmt < 0))⟩

/-- Free USDT balance looked up by `validateTrade` line 130-131 (0 when the
asset is absent). -/
def usdtFree (userBalances : List Balance) : ℚ :=
  ((userBalances.find? (fun b => b.asset == "USDT")).map Balance.free).getD 0

/-- `validateTrade` of src/binance.js lines 100-143, with the market price it
fetches passed in.  Note the guard of the balance check is the literal
`side === 'BUY' || side === 'SELL'` of line 134. -/
def validateTrade (cleanSymbol : String) (quantity : ℚ) (side : String)
    (userBalances : List Balance) (marketPrice : ℚ) : Except TradeError ℚ :=
  if quantity ≤ 0 then Except.error TradeError.invalidQuantity
  else if marketPrice = 0 then Except.error TradeError.priceUnavailable
  else if quantity * marketPrice < (if highValueSymbols.contains cleanSymbol then 5 else 20) then
    Except.error TradeError.belowMinimumNotional
  else if side = "BUY" ∨ side = "SELL" then
    if usdtFree userBalances * (9 / 10) < quantity * marketPrice then
      Except.error TradeError.insufficientBalance
    else Except.ok (quantity * marketPrice)
  else Except.ok (quantity * marketPrice)

/-- Error propagation of the routing step: a routing failure aborts the
trade, a routed order continues into quantization and validation. -/
def andThen (x : Except TradeError RoutedOrder)
    (f : RoutedOrder → Except TradeError RoutedOrder) : Except TradeError RoutedOrder :=
  match x with
  | Except.error e => Except.error e
  | Except.ok r => f r

/-- Error propagation of the validation step: a validation failure aborts
the trade (no order is submitted), success submits the order with the
quantized quantity. -/
def keepIfValid (v : Except TradeError ℚ) (r : RoutedOrder) (q : ℚ) :
    Except TradeError RoutedOrder :=
  match v with
  | Except.error e => Except.error e
  | Except.ok _ => Except.ok { r with quantity := q }

/-- The routing/quantization/validation pipeline of `executeTradeInternal`
(lines 245-297): route, quantize the decided quantity with the instrument
step size, then validate the quantized quantity; an error anywhere prevents
order submission.  The submitted order carries the quantized quantity. -/
def executeTrade (cleanSymbol action : String) (quantity posAmt stepSize marketPrice : ℚ)
    (userBalances : List Balance) : Except TradeError RoutedOrder :=
  andThen (route action quantity posAmt) (fun r =>
    keepIfValid
      (validateTrade cleanSymbol (roundToStepVal r.quantity stepSize) r.side
        userBalances marketPrice)
      r (roundToStepVal r.quantity stepSize))

/-! ### Signed request construction

Each authenticated call site of src/binance.js builds a query string, signs
it with `signHmac(secretKey, queryString)` and sends
`queryString + '&signature=' + signature`.  The HMAC primitive itself lives
in the crypto library, so it is an abstract parameter here; the builders
below reproduce each call site's string construction verbatim. -/

/-- The serialization `Object.keys(params).map(key => key + '=' + value).join('&')`
of line 299 (insertion order preserved). -/
def serializeParams (ps : List (String × String)) : String :=
  String.intercalate "&" (ps.map (fun p => p.1 ++ "=" ++ p.2))

/-- Query string of the account snapshot call (line 163). -/
def accountQuery (timestamp recvWindow : ℤ) : String :=
  "timestamp=" ++ toString timestamp ++ "&recvWindow=" ++ toString recvWindow

/-- Query string of the leverage-change call, exactly as the template literal
of line 230 builds it (including its embedded blanks). -/
def levQuery (cleanSymbol : String) (targetLeverage timestamp : ℤ) : String :=
  "symbol = " ++ cleanSymbol ++ "& leverage=" ++ toString targetLeverage ++
    "& timestamp=" ++ toString timestamp ++ "& recvWindow=5000"

/-- Ordered parameter list of the market-order call (lines 248-255, 283-285):
insertion order symbol, side, type, quantity, timestamp, newClientOrderId. -/
def orderParams (cleanSymbol side orderType quantityStr clientOrderId : String)
    (timestamp : ℤ) : List (String × String) :=
  [("symbol", cleanSymbol), ("side", side), ("type", orderType),
   ("quantity", quantityStr), ("timestamp", toString timestamp),
   ("newClientOrderId", clientOrderId)]

/-- Query string of the market-order call (line 299). -/
def orderQuery (cleanSymbol side orderType quantityStr clientOrderId : String)
    (timestamp : ℤ) : String :=
  serializeParams (orderParams cleanSymbol side orderType quantityStr clientOrderId timestamp)

/-- Query string of the conditional-order call (line 323). -/
def condQuery (cleanSymbol exitSide condType roundedPrice algoId : String)
    (timestamp : ℤ) : String :=
  "symbol=" ++ cleanSymbol ++ "&side=" ++ exitSide ++ "&algoType=CONDITIONAL&type=" ++
    condType ++ "&triggerPrice=" ++ roundedPrice ++ "&closePosition=true&newClientOrderId=" ++
    algoId ++ "&timestamp=" ++ toString timestamp ++ "&recvWindow=5000"

/-- The sent request of every authenticated call site: the query string with
the hex signature of that same string appended as the final parameter. -/
def signedRequest (hmacHex : String → String → String) (secretKey query : String) : String :=
  query ++ "&signature=" ++ hmacHex secretKey query

/-! ### Schedule evaluator from `runTradeCycle`
(server file lines 248-275).  Timestamps are milliseconds since the epoch. -/

/-- Interval schedule check (lines 248-255): due when no prior run is
recorded, or when `Math.floor((now - lastRun) / 60000)` reaches the
configured interval. -/
def shouldRunInterval (lastRun : Option ℤ) (nowUTC intervalMinutes : ℤ) : Bool :=
  match lastRun with
  | none => true
  | some t => decide (intervalMinutes ≤ (nowUTC - t).fdiv 60000)

/-- The fixed UTC+3 offset of line 225 (`3 * 60 * 60 * 1000`), in ms. -/
def trOffsetMs : ℤ := 3 * 3600000

/-- JavaScript `getUTCHours` of a date with the given time value. -/
def jsGetUTCHours (t : ℤ) : ℤ := (t.fdiv 3600000).emod 24

/-- JavaScript `getUTCMinutes` of a date with the given time value. -/
def jsGetUTCMinutes (t : ℤ) : ℤ := (t.fdiv 60000).emod 60

/-- Proleptic Gregorian civil date (year, month 1-12, day) of a day count
from 1970-01-01, the standard days-to-civil algorithm; JavaScript
`getUTCFullYear` / `getUTCMonth` / `getUTCDate` compute this same triple
(the month there 0-based, which does not affect equality comparisons). -/
def civilFromDays (z0 : ℤ) : ℤ × ℤ × ℤ :=
  let z := z0 + 719468
  let era := z.fdiv 146097
  let doe := z - era * 146097
  let yoe := (doe - doe.fdiv 1460 + doe.fdiv 36524 - doe.fdiv 146096).fdiv 365
  let y := yoe + era * 400
  let doy := doe - (365 * yoe + yoe.fdiv 4 - yoe.fdiv 100)
  let mp := (5 * doy + 2).fdiv 153
  let d := doy - (153 * mp + 2).fdiv 5 + 1
  let m := mp + (if mp < 10 then 3 else -9)
  (if m ≤ 2 then y + 1 else y, m, d)

/-- The (year, month, day) triple of the date holding a time value, as the
source compares via `getUTCDate`, `getUTCMonth`, `getUTCFullYear`. -/
def jsDateTriple (t : ℤ) : ℤ × ℤ × ℤ := civilFromDays (t.fdiv 86400000)

/-- Daily schedule check (lines 256-275): shift both now and the last run
into the UTC+3 civil calendar; due when the last run is not on the same
civil day and the civil time of day has reached the target hour:minute. -/
def shouldRunDaily (lastRun : Option ℤ) (nowUTC targetHour targetMin : ℤ) : Bool :=
  let nowTR := nowUTC + trOffsetMs
  let currentHour := jsGetUTCHours nowTR
  let currentMin := jsGetUTCMinutes nowTR
  let hasRunToday :=
    match lastRun with
    | none => false
    | some t => decide (jsDateTriple (t + trOffsetMs) = jsDateTriple nowTR)
  if hasRunToday then false
  else decide (targetHour < currentHour ∨ (currentHour = targetHour ∧ targetMin ≤ currentMin))

/-! ### Write-then-work interleaving model
for the cycle orchestrator (server file lines 229-294).

One account's cycle, as `runTradeCycle` program order has it: read the
settings row and judge the schedule (in-memory, one step), then - when due -
write the `last_autonomous_run` stamp, then start the external work (context
fetch, analyst call, order submission).  Two concurrent evaluations of the
same account (overlapping sweeps) interleave their steps over the shared
stored stamp. -/

/-- Observable steps of one evaluation of an account. -/
inductive SweepEvent where
  | readSettings
  | stampLastRun
  | externalWork
  deriving DecidableEq

/-- One in-flight evaluation: program counter (0 before the read, 1 judged
due, 2 stamped, 3 external work started, 4 declined), the wall-clock time it
captured, the settings snapshot it read, and its due verdict. -/
structure CycleProc where
  pc : ℕ
  now : ℤ
  snap : Option (Option ℤ)
  due : Option Bool
  deriving DecidableEq

/-- Shared state and two overlapping evaluations of the same account, plus
the global trace of executed steps (false tags the first evaluation, true
the second). -/
structure SweepConfig where
  store : Option ℤ
  p1 : CycleProc
  p2 : CycleProc
  events : List (Bool × SweepEvent)
  deriving DecidableEq

/-- One step of one evaluation against the stored stamp: read-and-judge,
stamp, or begin external work, following `runTradeCycle` program order. -/
def procStep (intervalMinutes : ℤ) (store : Option ℤ) (p : CycleProc) :
    Option ℤ × CycleProc × Option SweepEvent :=
  if p.pc = 0 then
    let d := shouldRunInterval store p.now intervalMinutes
    (store, { p with pc := if d then 1 else 4, snap := some store, due := some d },
      some SweepEvent.readSettings)
  else if p.pc = 1 then
    (some p.now, { p with pc := 2 }, some SweepEvent.stampLastRun)
  else if p.pc = 2 then
    (store, { p with pc := 3 }, some SweepEvent.externalWork)
  else (store, p, none)

/-- Advance the chosen evaluation by one step and record the event. -/
def sweepStep (intervalMinutes : ℤ) (c : SweepConfig) (i : Bool) : SweepConfig :=
  if i then
    { c with store := (procStep intervalMinutes c.store c.p2).1,
             p2 := (procStep intervalMinutes c.store c.p2).2.1,
             events := c.events ++
               (((procStep intervalMinutes c.store c.p2).2.2).map (fun ev => (true, ev))).toList }
  else
    { c with store := (procStep intervalMinutes c.store c.p1).1,
             p1 := (procStep intervalMinutes c.store c.p1).2.1,
             events := c.events ++
               (((procStep intervalMinutes c.store c.p1).2.2).map (fun ev => (false, ev))).toList }

/-- Run an explicit interleaving (false = step evaluation 1, true = step
evaluation 2). -/
def runSweep (intervalMinutes : ℤ) (c : SweepConfig) : List Bool → SweepConfig
  | [] => c
  | i :: rest => runSweep intervalMinutes (sweepStep intervalMinutes c i) rest

/-- Two fresh overlapping evaluations (captured clocks now1, now2) over a
stored stamp. -/
def initialSweep (lastRun : Option ℤ) (now1 now2 : ℤ) : SweepConfig :=
  ⟨lastRun, ⟨0, now1, none, none⟩, ⟨0, now2, none, none⟩, []⟩

/-- Program counter of the chosen evaluation. -/
def pcOf (c : SweepConfig) : Bool → ℕ
  | true => c.p2.pc
  | false => c.p1.pc

/-- Trace property: every external-work step of an evaluation is preceded in
the global trace by that evaluation's stamp write. -/
def stampedBefore (c : SweepConfig) : Prop :=
  ∀ (i : Bool) (k : ℕ), c.events[k]? = some (i, SweepEvent.externalWork) →
    ∃ j : ℕ, j < k ∧ c.events[j]? = some (i, SweepEvent.stampLastRun)

/-- Auxiliary invariant: an evaluation past its stamp step has its stamp in
the trace. -/
def stampRecorded (c : SweepConfig) : Prop :=
  ∀ i : Bool, (pcOf c i = 2 ∨ pcOf c i = 3) →
    ∃ j : ℕ, j < c.events.length ∧ c.events[j]? = some (i, SweepEvent.stampLastRun)

/-- Auxiliary invariant: the second evaluation's due verdict is the schedule
check applied to the snapshot it read. -/
def snapDue (intervalMinutes : ℤ) (c : SweepConfig) : Prop :=
  ∀ s, c.p2.snap = some s → c.p2.due = some (shouldRunInterval s c.p2.now intervalMinutes)

/-! ### Quantizer lemmas -/

theorem jsPrecision_one : jsPrecision 1 = 0 := by
  unfold jsPrecision
  have h : (((1:ℚ))⁻¹) ^ 2 = (1 : ℚ) := by norm_num
  rw [h, Int.log_one_right]
  decide

theorem jsPrecision_pow10 (d : ℕ) : jsPrecision (((10:ℚ) ^ d)⁻¹) = d := by
  unfold jsPrecision
  have h : ((((10:ℚ) ^ d)⁻¹)⁻¹) ^ 2 = ((10:ℕ):ℚ) ^ ((2 * d : ℕ) : ℤ) := by
    rw [inv_inv, ← pow_mul, zpow_natCast]
    norm_num [mul_comm]
  rw [h, Int.log_zpow (by norm_num), Int.fdiv_eq_ediv _ (by norm_num)]
  omega

theorem jsPrecision_quarter : jsPrecision (1/4) = 1 := by
  unfold jsPrecision
  have h : (((1:ℚ)/4)⁻¹) ^ 2 = ((16:ℕ):ℚ) := by norm_num
  rw [h, Int.log_natCast]
  have h16 : Nat.log 10 16 = 1 := Nat.log_eq_of_pow_le_of_lt_pow (by norm_num) (by norm_num)
  rw [h16]
  decide

theorem jsFixedNat_div_pow (k : ℤ) (f : ℕ) : jsFixedNat ((k : ℚ) / 10 ^ f) f = k.toNat := by
  unfold jsFixedNat
  have h10 : ((10:ℚ) ^ f) ≠ 0 := by positivity
  rw [div_mul_cancel₀ _ h10, Int.floor_int_add]
  norm_num

theorem jsToFixedVal_div_pow (k : ℤ) (f : ℕ) (hk : 0 ≤ k) :
    jsToFixedVal ((k : ℚ) / 10 ^ f) f = (k : ℚ) / 10 ^ f := by
  unfold jsToFixedVal
  have hnn : (0:ℚ) ≤ (k : ℚ) / 10 ^ f :=
    div_nonneg (by exact_mod_cast hk) (by positivity)
  rw [if_neg (not_lt.mpr hnn), jsFixedNat_div_pow k f]
  congr 1
  exact_mod_cast congrArg (Int.cast : ℤ → ℚ) (Int.toNat_of_nonneg hk)

theorem natDigitsStr_data_length (f : ℕ) : ∀ m, (natDigitsStr m f).data.length = f := by
  induction f with
  | zero => intro m; rfl
  | succ f ih =>
    intro m
    have h : natDigitsStr m (f + 1) =
        natDigitsStr (m / 10) f ++ String.singleton (digitCh m) := rfl
    rw [h, String.data_append, String.data_singleton]
    simp [ih]

theorem digitCh_ne_dot (d : ℕ) : digitCh d ≠ dotChar := by
  unfold digitCh
  have h : d % 10 < 10 := Nat.mod_lt _ (by norm_num)
  set m := d % 10 with hm
  interval_cases m <;> decide

theorem natDigitsStr_nodot (f : ℕ) : ∀ m, ∀ c ∈ (natDigitsStr m f).data, c ≠ dotChar := by
  induction f with
  | zero =>
    intro m c hc
    have h0 : natDigitsStr m 0 = "" := rfl
    rw [h0] at hc
    simp at hc
  | succ f ih =>
    intro m c hc
    have h : natDigitsStr m (f + 1) =
        natDigitsStr (m / 10) f ++ String.singleton (digitCh m) := rfl
    rw [h, String.data_append, String.data_singleton] at hc
    rcases List.mem_append.mp hc with h1 | h1
    · exact ih (m / 10) c h1
    · rw [List.mem_singleton] at h1
      subst h1
      exact digitCh_ne_dot m

theorem natNumeral_nodot (n : ℕ) : ∀ c ∈ (natNumeral n).data, c ≠ dotChar :=
  natDigitsStr_nodot (natLen n) n

theorem decimalPlacesAux_none (l : List Char) (h : ∀ c ∈ l, c ≠ dotChar) :
    decimalPlacesAux l = none := by
  induction l with
  | nil => rfl
  | cons c cs ih =>
    have hc : c ≠ dotChar := h c (by simp)
    simp [decimalPlacesAux, hc, ih (fun x hx => h x (by simp [hx]))]

theorem decimalPlacesAux_dot (r : List Char) (l : List Char) (h : ∀ c ∈ l, c ≠ dotChar) :
    decimalPlacesAux (l ++ dotChar :: r) = some l.length := by
  induction l with
  | nil => simp [decimalPlacesAux]
  | cons c cs ih =>
    have hc : c ≠ dotChar := h c (by simp)
    simp [decimalPlacesAux, hc, ih (fun x hx => h x (by simp [hx]))]

theorem decimalPlaces_posFixedStr (y : ℚ) (f : ℕ) : decimalPlaces (posFixedStr y f) = f := by
  cases f with
  | zero =>
    unfold decimalPlaces posFixedStr
    rw [if_pos rfl]
    rw [decimalPlacesAux_none _ (fun c hc => natNumeral_nodot _ c (List.mem_reverse.mp hc))]
    rfl
  | succ f =>
    unfold decimalPlaces posFixedStr
    rw [if_neg (Nat.succ_ne_zero f)]
    rw [String.data_append, String.data_append, String.data_singleton]
    rw [List.append_assoc, List.reverse_append]
    have hsplit : ([dotChar] ++ (natDigitsStr (jsFixedNat y (f+1) % 10 ^ (f+1)) (f+1)).data).reverse =
        (natDigitsStr (jsFixedNat y (f+1) % 10 ^ (f+1)) (f+1)).data.reverse ++ [dotChar] := by
      simp
    rw [hsplit, List.append_assoc]
    have hcons : ([dotChar] : List Char) ++ (natNumeral (jsFixedNat y (f+1) / 10 ^ (f+1))).data.reverse =
        dotChar :: (natNumeral (jsFixedNat y (f+1) / 10 ^ (f+1))).data.reverse := rfl
    rw [hcons]
    rw [decimalPlacesAux_dot _ _
      (fun c hc => natDigitsStr_nodot (f+1) _ c (List.mem_reverse.mp hc))]
    simp only [Option.getD_some, List.length_reverse]
    exact natDigitsStr_data_length (f+1) _

theorem roundToStepVal_pow10 (value : ℚ) (d : ℕ) (hv : 0 ≤ value) :
    roundToStepVal value (((10:ℚ) ^ d)⁻¹) = (⌊value * 10 ^ d⌋ : ℚ) / 10 ^ d := by
  unfold roundToStepVal
  rw [jsPrecision_pow10]
  rw [div_eq_mul_inv, inv_inv]
  have hnn : 0 ≤ ⌊value * (10:ℚ) ^ d⌋ := Int.floor_nonneg.mpr (by positivity)
  have heq : (⌊value * (10:ℚ) ^ d⌋ : ℚ) * ((10:ℚ) ^ d)⁻¹ = (⌊value * (10:ℚ) ^ d⌋ : ℚ) / 10 ^ d :=
    (div_eq_mul_inv _ _).symm
  rw [heq, jsToFixedVal_div_pow _ _ hnn]

theorem roundToStepVal_one (q : ℚ) (hq : 0 ≤ q) : roundToStepVal q 1 = (⌊q⌋ : ℚ) := by
  have h := roundToStepVal_pow10 q 0 hq
  simpa using h

/-- C2 (counterexample): the claim quantifies over every value and every
step > 0, but at value = -1/4 and step = 1/4 the code returns the string
"-0.3", whose value -3/10 is negative (the claim says non-negative), is not
floor(value/step)*step = -1/4 (the claim says it returns exactly that), and
exceeds the magnitude of floor(value/step)*step (toFixed rounded up). -/
theorem roundToStep_claim_counterexample :
    roundToStep (-(1/4)) (1/4) = "-0.3" ∧
    roundToStepVal (-(1/4)) (1/4) < 0 ∧
    roundToStepVal (-(1/4)) (1/4) ≠ (⌊(-(1/4) : ℚ) / (1/4)⌋ : ℚ) * (1/4) := by
  have h3 : jsFixedNat (1/4 : ℚ) 1 = 3 := by
    unfold jsFixedNat
    norm_num
    decide
  have hfl : (⌊(-(1/4) : ℚ) / (1/4)⌋ : ℤ) = -1 := by norm_num
  have hX : (⌊(-(1/4) : ℚ) / (1/4)⌋ : ℚ) * (1/4 : ℚ) = -(1/4) := by
    rw [hfl]; norm_num
  have hval : roundToStepVal (-(1/4)) (1/4) = -(3/10) := by
    unfold roundToStepVal
    rw [jsPrecision_quarter, hX]
    unfold jsToFixedVal
    rw [if_pos (by norm_num : (-(1/4) : ℚ) < 0)]
    rw [(by norm_num : (-(-(1/4)) : ℚ) = 1/4), h3]
    norm_num
  refine ⟨?_, ?_, ?_⟩
  · unfold roundToStep
    rw [jsPrecision_quarter, hX]
    unfold jsToFixed
    rw [if_pos (by norm_num : (-(1/4) : ℚ) < 0)]
    rw [(by norm_num : (-(-(1/4)) : ℚ) = 1/4)]
    unfold posFixedStr
    rw [if_neg (by norm_num), h3]
    decide
  · rw [hval]; norm_num
  · rw [hval, hX]; norm_num

/-- C2 (amended): for every value ≥ 0 and every step that is a power of ten
10^(-d), roundToStep(value, step) returns floor(value/step)*step formatted
with exactly max(0, round(-log10(step))) = d decimal places; the returned
value is a non-negative integer multiple of step, is at most value, and the
rounding is toward zero (never up); roundToStep(0.0034, 0.001) = "0.003". -/
theorem roundToStep_amended (value : ℚ) (d : ℕ) (hv : 0 ≤ value) :
    jsPrecision (((10:ℚ) ^ d)⁻¹) = d ∧
    roundToStepVal value (((10:ℚ) ^ d)⁻¹) =
      (⌊value / (((10:ℚ) ^ d)⁻¹)⌋ : ℚ) * (((10:ℚ) ^ d)⁻¹) ∧
    0 ≤ roundToStepVal value (((10:ℚ) ^ d)⁻¹) ∧
    roundToStepVal value (((10:ℚ) ^ d)⁻¹) ≤ value ∧
    (∃ k : ℤ, roundToStepVal value (((10:ℚ) ^ d)⁻¹) = (k : ℚ) * (((10:ℚ) ^ d)⁻¹)) ∧
    decimalPlaces (roundToStep value (((10:ℚ) ^ d)⁻¹)) = d := by
  have hpow : (0:ℚ) < 10 ^ d := by positivity
  have hfl : ⌊value / ((10:ℚ) ^ d)⁻¹⌋ = ⌊value * 10 ^ d⌋ := by
    rw [div_eq_mul_inv, inv_inv]
  have hnn : 0 ≤ ⌊value * (10:ℚ) ^ d⌋ := Int.floor_nonneg.mpr (by positivity)
  have hval := roundToStepVal_pow10 value d hv
  refine ⟨jsPrecision_pow10 d, ?_, ?_, ?_, ?_, ?_⟩
  · rw [hval, hfl, div_eq_mul_inv]
  · rw [hval]
    exact div_nonneg (by exact_mod_cast hnn) (le_of_lt hpow)
  · rw [hval, div_le_iff₀ hpow]
    exact Int.floor_le _
  · exact ⟨⌊value * 10 ^ d⌋, by rw [hval, div_eq_mul_inv]⟩
  · unfold roundToStep
    rw [jsPrecision_pow10, hfl]
    have hXnn : (0:ℚ) ≤ (⌊value * (10:ℚ) ^ d⌋ : ℚ) * ((10:ℚ) ^ d)⁻¹ := by
      apply mul_nonneg (by exact_mod_cast hnn)
      positivity
    unfold jsToFixed
    rw [if_neg (not_lt.mpr hXnn)]
    exact decimalPlaces_posFixedStr _ d

/-- C2 (witness): the amended theorem at value = 0.0034, d = 3, together
with the concrete formatted output "0.003" required by the claim. -/
theorem roundToStep_amended_witness :
    (0:ℚ) ≤ 34/10000 ∧
    roundToStepVal (34/10000) (((10:ℚ) ^ 3)⁻¹) =
      (⌊(34/10000 : ℚ) / (((10:ℚ) ^ 3)⁻¹)⌋ : ℚ) * (((10:ℚ) ^ 3)⁻¹) ∧
    decimalPlaces (roundToStep (34/10000) (((10:ℚ) ^ 3)⁻¹)) = 3 ∧
    roundToStep (34/10000) (((10:ℚ) ^ 3)⁻¹) = "0.003" := by
  refine ⟨by norm_num, (roundToStep_amended (34/10000) 3 (by norm_num)).2.1,
    (roundToStep_amended (34/10000) 3 (by norm_num)).2.2.2.2.2, ?_⟩
  have h3 : jsFixedNat ((3 : ℤ) / 10 ^ 3 : ℚ) 3 = 3 := by
    rw [jsFixedNat_div_pow 3 3]
    rfl
  have hX : (⌊(34/10000 : ℚ) / (((10:ℚ) ^ 3)⁻¹)⌋ : ℚ) * ((10:ℚ) ^ 3)⁻¹ = ((3:ℤ) : ℚ) / 10 ^ 3 := by
    rw [div_eq_mul_inv, inv_inv, (by norm_num : ⌊(34/10000 : ℚ) * 10 ^ 3⌋ = (3:ℤ))]
    norm_num
  unfold roundToStep
  rw [jsPrecision_pow10, hX]
  unfold jsToFixed
  rw [if_neg (not_lt.mpr (by positivity : (0:ℚ) ≤ ((3:ℤ) : ℚ) / 10 ^ 3))]
  unfold posFixedStr
  rw [if_neg (by norm_num), h3]
  decide

/-! ### Router and validation theorems -/

theorem andThen_ok (r : RoutedOrder) (f : RoutedOrder → Except TradeError RoutedOrder) :
    andThen (Except.ok r) f = f r := rfl

theorem keepIfValid_error (e : TradeError) (r : RoutedOrder) (q : ℚ) :
    keepIfValid (Except.error e) r q = Except.error e := rfl

theorem requestedSide_buy : requestedSide "BUY" = "BUY" := by decide

theorem requestedSide_sell : requestedSide "SELL" = "SELL" := by decide

/-- C1: the trade router implements the decision table: for action CLOSE with
a nonzero position the order takes the side opposite to the position sign,
quantity abs(position), isClosing true; CLOSE on a flat position fails with
NoPositionToClose; for BUY or SELL the side and quantity come from the
proposal and isClosing holds exactly when the requested side reduces the
position (SELL while long, BUY while short), otherwise false. -/
theorem route_decision_table (qty posAmt : ℚ) :
    (posAmt ≠ 0 → route "CLOSE" qty posAmt =
      Except.ok ⟨if 0 < posAmt then "SELL" else "BUY", "MARKET", |posAmt|, true⟩) ∧
    route "CLOSE" qty 0 = Except.error TradeError.noPositionToClose ∧
    route "BUY" qty posAmt = Except.ok ⟨"BUY", "MARKET", qty, decide (posAmt < 0)⟩ ∧
    route "SELL" qty posAmt = Except.ok ⟨"SELL", "MARKET", qty, decide (0 < posAmt)⟩ := by
  refine ⟨fun h => ?_, ?_, ?_, ?_⟩
  · unfold route
    rw [if_pos rfl, if_pos h]
  · unfold route
    rw [if_pos rfl, if_neg (by simp)]
  · unfold route
    rw [if_neg (by decide : ¬("BUY" : String) = "CLOSE")]
    simp only [requestedSide_buy]
    refine congrArg Except.ok (congrArg (fun b => RoutedOrder.mk "BUY" "MARKET" qty b) ?_)
    rw [decide_eq_decide]
    simp
  · unfold route
    rw [if_neg (by decide : ¬("SELL" : String) = "CLOSE")]
    simp only [requestedSide_sell]
    refine congrArg Except.ok (congrArg (fun b => RoutedOrder.mk "SELL" "MARKET" qty b) ?_)
    rw [decide_eq_decide]
    simp

/-- C1 (witness): the decision table at the claim's instance: CLOSE with a
long position of 2.5 becomes SELL 2.5 isClosing, and SELL against a long or
a short position flags isClosing accordingly. -/
theorem route_decision_table_witness :
    (5/2 : ℚ) ≠ 0 ∧
    route "CLOSE" 1 (5/2) = Except.ok ⟨"SELL", "MARKET", |(5/2 : ℚ)|, true⟩ ∧
    route "SELL" 1 1 = Except.ok ⟨"SELL", "MARKET", 1, decide ((0:ℚ) < 1)⟩ ∧
    route "SELL" 1 (-1) = Except.ok ⟨"SELL", "MARKET", 1, decide ((0:ℚ) < -1)⟩ := by
  refine ⟨by norm_num, ?_, (route_decision_table 1 1).2.2.2, (route_decision_table 1 (-1)).2.2.2⟩
  have h := (route_decision_table 1 (5/2)).1 (by norm_num)
  rw [h, if_pos (by norm_num : (0:ℚ) < 5/2)]

/-- C9: a proposal whose action is neither the exact string CLOSE nor one
whose upper-cased form starts with BUY is routed as a SELL market order with
the proposal quantity - unrecognized actions are not rejected. -/
theorem route_unrecognized_action_sell (action : String) (qty posAmt : ℚ)
    (h1 : action ≠ "CLOSE") (h2 : strStartsWith (jsToUpperCase action) "BUY" = false) :
    route action qty posAmt = Except.ok ⟨"SELL", "MARKET", qty, decide (0 < posAmt)⟩ := by
  have hside : requestedSide action = "SELL" := by
    unfold requestedSide
    rw [h2]
    simp
  unfold route
  rw [if_neg h1]
  simp only [hside]
  refine congrArg Except.ok (congrArg (fun b => RoutedOrder.mk "SELL" "MARKET" qty b) ?_)
  rw [decide_eq_decide]
  simp

/-- C9 (witness): the action HOLD is routed as a SELL market order. -/
theorem route_unrecognized_action_sell_witness :
    ("HOLD" : String) ≠ "CLOSE" ∧ strStartsWith (jsToUpperCase "HOLD") "BUY" = false ∧
    route "HOLD" 1 0 = Except.ok ⟨"SELL", "MARKET", 1, decide ((0:ℚ) < 0)⟩ :=
  ⟨by decide, by decide, route_unrecognized_action_sell "HOLD" 1 0 (by decide) (by decide)⟩

/-- C4: pre-submission validation enforces the minimum notional: with a
positive quantity and price, a symbol outside the high-liquidity allow-list
fails with BelowMinimumNotional exactly when quantity times price is below
20, and an allow-listed symbol exactly when it is below 5. -/
theorem validateTrade_min_notional (sym side : String) (qty price : ℚ) (bs : List Balance)
    (hq : 0 < qty) (hp : 0 < price) :
    (highValueSymbols.contains sym = false →
      ((qty * price < 20 → validateTrade sym qty side bs price =
          Except.error TradeError.belowMinimumNotional) ∧
       (20 ≤ qty * price → validateTrade sym qty side bs price ≠
          Except.error TradeError.belowMinimumNotional))) ∧
    (highValueSymbols.contains sym = true →
      ((qty * price < 5 → validateTrade sym qty side bs price =
          Except.error TradeError.belowMinimumNotional) ∧
       (5 ≤ qty * price → validateTrade sym qty side bs price ≠
          Except.error TradeError.belowMinimumNotional))) := by
  unfold validateTrade
  rw [if_neg (not_le.mpr hq), if_neg (ne_of_gt hp)]
  constructor
  · intro hmem
    have hmin : (if highValueSymbols.contains sym then (5:ℚ) else 20) = 20 := by rw [hmem]; simp
    rw [hmin]
    refine ⟨fun h => by rw [if_pos h], fun h => ?_⟩
    rw [if_neg (not_lt.mpr h)]
    split_ifs <;> simp
  · intro hmem
    have hmin : (if highValueSymbols.contains sym then (5:ℚ) else 20) = 5 := by rw [hmem]; simp
    rw [hmin]
    refine ⟨fun h => by rw [if_pos h], fun h => ?_⟩
    rw [if_neg (not_lt.mpr h)]
    split_ifs <;> simp

/-- C4 (witness): for a symbol outside the allow-list, notional 15 fails
with BelowMinimumNotional and notional 25 does not. -/
theorem validateTrade_min_notional_witness :
    (0:ℚ) < 15 ∧ (0:ℚ) < 1 ∧ highValueSymbols.contains "XRPUSDT" = false ∧
    validateTrade "XRPUSDT" 15 "BUY" [⟨"USDT", 1000⟩] 1 =
      Except.error TradeError.belowMinimumNotional ∧
    validateTrade "XRPUSDT" 25 "BUY" [⟨"USDT", 1000⟩] 1 ≠
      Except.error TradeError.belowMinimumNotional := by
  refine ⟨by norm_num, by norm_num, by decide, ?_, ?_⟩
  · exact ((validateTrade_min_notional "XRPUSDT" "BUY" 15 1 [⟨"USDT", 1000⟩]
      (by norm_num) (by norm_num)).1 (by decide)).1 (by norm_num)
  · exact ((validateTrade_min_notional "XRPUSDT" "BUY" 25 1 [⟨"USDT", 1000⟩]
      (by norm_num) (by norm_num)).1 (by decide)).2 (by norm_num)

/-- C3 (code evidence): a closing order can fail with InsufficientBalance.
Routing an explicit CLOSE of a long 2.5 position (step size 1, market price
100, free USDT balance 1) yields a closing SELL whose notional 200 exceeds
90 percent of the balance, and validation rejects it with
InsufficientBalance - the guard side BUY-or-SELL of the balance check holds
for every order, closing ones included. -/
theorem closing_order_hits_balance_check :
    executeTrade "BTCUSDT" "CLOSE" 1 (5/2) 1 100 [⟨"USDT", 1⟩] =
      Except.error TradeError.insufficientBalance := by
  have hroute : route "CLOSE" 1 (5/2) = Except.ok ⟨"SELL", "MARKET", |(5/2 : ℚ)|, true⟩ := by
    unfold route
    rw [if_pos rfl, if_pos (by norm_num : (5/2 : ℚ) ≠ 0), if_pos (by norm_num : (0:ℚ) < 5/2)]
  have habs : |(5/2 : ℚ)| = 5/2 := by norm_num
  have hqv : roundToStepVal (|(5/2 : ℚ)|) 1 = 2 := by
    rw [habs, roundToStepVal_one (5/2) (by norm_num)]
    norm_num
  have husdt : usdtFree [⟨"USDT", 1⟩] = 1 := rfl
  have hval : validateTrade "BTCUSDT" (roundToStepVal (|(5/2 : ℚ)|) 1) "SELL" [⟨"USDT", 1⟩] 100 =
      Except.error TradeError.insufficientBalance := by
    rw [hqv]
    unfold validateTrade
    rw [if_neg (by norm_num : ¬(2:ℚ) ≤ 0), if_neg (by norm_num : (100:ℚ) ≠ 0)]
    rw [if_pos (by decide : highValueSymbols.contains "BTCUSDT" = true)]
    rw [if_neg (by norm_num : ¬(2 * 100 : ℚ) < 5)]
    rw [if_pos (Or.inr rfl), husdt, if_pos (by norm_num : (1 : ℚ) * (9/10) < 2 * 100)]
  unfold executeTrade
  simp only [hroute, andThen_ok]
  rw [hval, keepIfValid_error]

/-- C10: a proposal quantity that is nonnegative but smaller than one step
quantizes to zero, and the pipeline rejects it with the invalid-quantity
error before any order is submitted: the strict-positivity check applies to
the quantized quantity, not the raw proposal quantity. -/
theorem executeTrade_subStep_quantity_rejected (sym action : String)
    (qty posAmt stepSize price : ℚ) (bs : List Balance)
    (hC : action ≠ "CLOSE") (h0 : 0 ≤ qty) (hlt : qty < stepSize) :
    executeTrade sym action qty posAmt stepSize price bs =
      Except.error TradeError.invalidQuantity := by
  have hs : 0 < stepSize := lt_of_le_of_lt h0 hlt
  have hzero : roundToStepVal qty stepSize = 0 := by
    unfold roundToStepVal
    have hfl : ⌊qty / stepSize⌋ = 0 := by
      rw [Int.floor_eq_zero_iff, Set.mem_Ico]
      exact ⟨div_nonneg h0 hs.le, (div_lt_one hs).mpr hlt⟩
    rw [hfl]
    unfold jsToFixedVal jsFixedNat
    norm_num
  unfold executeTrade route
  rw [if_neg hC]
  simp only [andThen_ok]
  rw [hzero]
  unfold validateTrade
  rw [if_pos le_rfl, keepIfValid_error]

/-- C10 (witness): a raw quantity 0.5 with step size 1 (and a positive
market price) is rejected with the invalid-quantity error even though the
raw quantity is strictly positive. -/
theorem executeTrade_subStep_quantity_rejected_witness :
    ("SELL" : String) ≠ "CLOSE" ∧ (0:ℚ) ≤ 1/2 ∧ (1/2 : ℚ) < 1 ∧ (0:ℚ) < 1/2 ∧
    executeTrade "XRPUSDT" "SELL" (1/2) 0 1 2 [] =
      Except.error TradeError.invalidQuantity :=
  ⟨by decide, by norm_num, by norm_num, by norm_num,
    executeTrade_subStep_quantity_rejected "XRPUSDT" "SELL" (1/2) 0 1 2 []
      (by decide) (by norm_num) (by norm_num)⟩

/-! ### Schedule evaluator theorems -/

/-- C5: the interval schedule is due exactly when no prior run is recorded
or the number of elapsed whole minutes since the last run is at least the
configured interval; at 60 minutes, a last run 59 minutes ago is not due and
one 60 minutes ago is due. -/
theorem shouldRunInterval_spec (now intervalMinutes t : ℤ) :
    shouldRunInterval none now intervalMinutes = true ∧
    (shouldRunInterval (some t) now intervalMinutes = true ↔
      intervalMinutes ≤ (now - t).fdiv 60000) ∧
    shouldRunInterval (some (now - 59 * 60000)) now 60 = false ∧
    shouldRunInterval (some (now - 60 * 60000)) now 60 = true := by
  refine ⟨rfl, by simp [shouldRunInterval], ?_, ?_⟩
  · show decide (60 ≤ (now - (now - 59 * 60000)).fdiv 60000) = false
    rw [(by ring : now - (now - 59 * 60000) = 3540000)]
    decide
  · show decide (60 ≤ (now - (now - 60 * 60000)).fdiv 60000) = true
    rw [(by ring : now - (now - 60 * 60000) = 3600000)]
    decide

/-- C5 (witness): the interval evaluator at a concrete clock: never-run is
due, 59 elapsed minutes is not due, 60 elapsed minutes is due. -/
theorem shouldRunInterval_spec_witness :
    shouldRunInterval none 7200000 60 = true ∧
    shouldRunInterval (some (7200000 - 59 * 60000)) 7200000 60 = false ∧
    shouldRunInterval (some (7200000 - 60 * 60000)) 7200000 60 = true :=
  ⟨(shouldRunInterval_spec 7200000 60 0).1,
   (shouldRunInterval_spec 7200000 60 0).2.2.1,
   (shouldRunInterval_spec 7200000 60 0).2.2.2⟩

/-- C6: the daily schedule is due exactly when the account has not already
run on the current civil day of the fixed UTC+3 calendar and the civil time
of day has reached the configured hour:minute (hour compared first, then
minute); with target 09:00, civil time 08:59 is not due, 09:00 with no prior
run that day is due, and a later evaluation the same civil day with the
09:00 run recorded is not due. -/
theorem shouldRunDaily_spec (lastRun : Option ℤ) (nowUTC targetHour targetMin : ℤ) :
    (shouldRunDaily lastRun nowUTC targetHour targetMin = true ↔
      ((∀ t, lastRun = some t →
          jsDateTriple (t + trOffsetMs) ≠ jsDateTriple (nowUTC + trOffsetMs)) ∧
       (targetHour < jsGetUTCHours (nowUTC + trOffsetMs) ∨
        (jsGetUTCHours (nowUTC + trOffsetMs) = targetHour ∧
         targetMin ≤ jsGetUTCMinutes (nowUTC + trOffsetMs))))) ∧
    shouldRunDaily none (19900 * 86400000 + 8 * 3600000 + 59 * 60000 - trOffsetMs) 9 0 = false ∧
    shouldRunDaily none (19900 * 86400000 + 9 * 3600000 - trOffsetMs) 9 0 = true ∧
    shouldRunDaily (some (19900 * 86400000 + 9 * 3600000 - trOffsetMs))
      (19900 * 86400000 + 15 * 3600000 - trOffsetMs) 9 0 = false := by
  refine ⟨?_, by decide, by decide, by decide⟩
  cases lastRun with
  | none =>
    unfold shouldRunDaily
    simp only [if_neg Bool.false_ne_true]
    rw [decide_eq_true_iff]
    constructor
    · intro h
      exact ⟨fun t ht => Option.noConfusion ht, by tauto⟩
    · intro h
      tauto
  | some t =>
    unfold shouldRunDaily
    by_cases hsame : jsDateTriple (t + trOffsetMs) = jsDateTriple (nowUTC + trOffsetMs)
    · rw [if_pos (by rw [decide_eq_true_iff]; exact hsame)]
      constructor
      · intro h
        exact absurd h (by simp)
      · rintro ⟨h1, _⟩
        exact absurd hsame (h1 t rfl)
    · rw [if_neg (by rw [decide_eq_true_iff]; exact hsame)]
      rw [decide_eq_true_iff]
      constructor
      · intro h
        refine ⟨fun u hu => ?_, by tauto⟩
        cases hu
        exact hsame
      · intro h
        tauto

/-- C6 (witness): the iff applied at a concrete instant: target 09:00 and a
last run recorded the previous civil day, evaluated at civil time 09:00. -/
theorem shouldRunDaily_spec_witness :
    shouldRunDaily (some (19899 * 86400000 + 12 * 3600000 - trOffsetMs))
      (19900 * 86400000 + 9 * 3600000 - trOffsetMs) 9 0 = true :=
  ((shouldRunDaily_spec (some (19899 * 86400000 + 12 * 3600000 - trOffsetMs))
      (19900 * 86400000 + 9 * 3600000 - trOffsetMs) 9 0).1).mpr
    ⟨fun t ht => by cases ht; decide, by decide⟩

/-! ### Signed request theorems -/

/-- C8 (code evidence): the leverage-change call site does not serialize its
parameters as key=value pairs joined by the ampersand: the template literal
of src/binance.js line 230 embeds stray blanks around the first equals sign
and after every ampersand, so the built string differs from the clean
serialization of the same ordered parameters. -/
theorem levQuery_not_clean_serialization :
    levQuery "BTCUSDT" 5 1700 =
      "symbol = BTCUSDT& leverage=5& timestamp=1700& recvWindow=5000" ∧
    serializeParams [("symbol", "BTCUSDT"), ("leverage", "5"), ("timestamp", "1700"),
      ("recvWindow", "5000")] = "symbol=BTCUSDT&leverage=5&timestamp=1700&recvWindow=5000" ∧
    levQuery "BTCUSDT" 5 1700 ≠
      serializeParams [("symbol", "BTCUSDT"), ("leverage", "5"), ("timestamp", "1700"),
        ("recvWindow", "5000")] := by
  refine ⟨by decide, by decide, by decide⟩

/-! ### Write-then-work theorems -/

theorem procStep_pc0 (iv : ℤ) (store : Option ℤ) (p : CycleProc) (h : p.pc = 0) :
    procStep iv store p =
      (store,
       { p with pc := if shouldRunInterval store p.now iv then 1 else 4,
                snap := some store, due := some (shouldRunInterval store p.now iv) },
       some SweepEvent.readSettings) := by
  unfold procStep
  rw [if_pos h]

theorem procStep_pc1 (iv : ℤ) (store : Option ℤ) (p : CycleProc) (h : p.pc = 1) :
    procStep iv store p = (some p.now, { p with pc := 2 }, some SweepEvent.stampLastRun) := by
  unfold procStep
  rw [if_neg (by omega), if_pos h]

theorem procStep_pc2 (iv : ℤ) (store : Option ℤ) (p : CycleProc) (h : p.pc = 2) :
    procStep iv store p = (store, { p with pc := 3 }, some SweepEvent.externalWork) := by
  unfold procStep
  rw [if_neg (by omega), if_neg (by omega), if_pos h]

theorem procStep_other (iv : ℤ) (store : Option ℤ) (p : CycleProc)
    (h0 : p.pc ≠ 0) (h1 : p.pc ≠ 1) (h2 : p.pc ≠ 2) :
    procStep iv store p = (store, p, none) := by
  unfold procStep
  rw [if_neg h0, if_neg h1, if_neg h2]

theorem stampedBefore_snoc (l : List (Bool × SweepEvent)) (ev : Bool × SweepEvent)
    (hA : ∀ (i : Bool) (k : ℕ), l[k]? = some (i, SweepEvent.externalWork) →
      ∃ j : ℕ, j < k ∧ l[j]? = some (i, SweepEvent.stampLastRun))
    (hev : ∀ i : Bool, ev = (i, SweepEvent.externalWork) →
      ∃ j : ℕ, j < l.length ∧ l[j]? = some (i, SweepEvent.stampLastRun)) :
    ∀ (i : Bool) (k : ℕ), (l ++ [ev])[k]? = some (i, SweepEvent.externalWork) →
      ∃ j : ℕ, j < k ∧ (l ++ [ev])[j]? = some (i, SweepEvent.stampLastRun) := by
  intro i k hk
  have hklen : k < l.length + 1 := by
    have h1 := (List.getElem?_eq_some.mp hk).1
    simpa using h1
  rcases Nat.lt_or_ge k l.length with hlt | hge
  · rw [List.getElem?_append_left hlt] at hk
    obtain ⟨j, hj, hjs⟩ := hA i k hk
    refine ⟨j, hj, ?_⟩
    rw [List.getElem?_append_left (lt_trans hj hlt)]
    exact hjs
  · have hkeq : k = l.length := by omega
    subst hkeq
    rw [List.getElem?_concat_length] at hk
    obtain ⟨j, hj, hjs⟩ := hev i (Option.some.inj hk)
    refine ⟨j, hj, ?_⟩
    rw [List.getElem?_append_left hj]
    exact hjs

theorem stamp_entry_snoc (l : List (Bool × SweepEvent)) (ev x : Bool × SweepEvent)
    (h : ∃ j : ℕ, j < l.length ∧ l[j]? = some x) :
    ∃ j : ℕ, j < (l ++ [ev]).length ∧ (l ++ [ev])[j]? = some x := by
  obtain ⟨j, hj, hjs⟩ := h
  refine ⟨j, by simp; omega, ?_⟩
  rw [List.getElem?_append_left hj]
  exact hjs

theorem sweepStep_inv (iv : ℤ) (c : SweepConfig) (i : Bool)
    (hA : stampedBefore c) (hR : stampRecorded c) (hS : snapDue iv c) :
    stampedBefore (sweepStep iv c i) ∧ stampRecorded (sweepStep iv c i) ∧
      snapDue iv (sweepStep iv c i) ∧ (sweepStep iv c i).p2.now = c.p2.now := by
  cases i
  · by_cases hp0 : c.p1.pc = 0
    · simp only [sweepStep, procStep_pc0 iv c.store c.p1 hp0, Bool.false_eq_true, if_false,
        Option.map_some', Option.toList_some]
      refine ⟨stampedBefore_snoc c.events _ hA (by intro i h; simp at h), ?_, hS, by trivial⟩
      intro i hi
      cases i
      · exfalso
        simp only [pcOf] at hi
        rcases hi with h | h <;> split_ifs at h <;> omega
      · exact stamp_entry_snoc c.events _ _ (hR true hi)
    · by_cases hp1 : c.p1.pc = 1
      · simp only [sweepStep, procStep_pc1 iv c.store c.p1 hp1, Bool.false_eq_true, if_false,
          Option.map_some', Option.toList_some]
        refine ⟨stampedBefore_snoc c.events _ hA (by intro i h; simp at h), ?_, hS, by trivial⟩
        intro i hi
        cases i
        · refine ⟨c.events.length, by simp, ?_⟩
          exact List.getElem?_concat_length c.events _
        · exact stamp_entry_snoc c.events _ _ (hR true hi)
      · by_cases hp2 : c.p1.pc = 2
        · simp only [sweepStep, procStep_pc2 iv c.store c.p1 hp2, Bool.false_eq_true, if_false,
            Option.map_some', Option.toList_some]
          refine ⟨?_, ?_, hS, by trivial⟩
          · refine stampedBefore_snoc c.events _ hA ?_
            intro i h
            have hi : i = false := by
              have := congrArg Prod.fst h
              simpa using this.symm
            subst hi
            exact hR false (Or.inl hp2)
          · intro i hi
            cases i
            · exact stamp_entry_snoc c.events _ _ (hR false (Or.inl hp2))
            · exact stamp_entry_snoc c.events _ _ (hR true hi)
        · simp [sweepStep, procStep_other iv c.store c.p1 hp0 hp1 hp2]
          exact ⟨hA, hR, hS⟩
  · by_cases hp0 : c.p2.pc = 0
    · simp only [sweepStep, procStep_pc0 iv c.store c.p2 hp0, if_true,
        Option.map_some', Option.toList_some]
      refine ⟨stampedBefore_snoc c.events _ hA (by intro i h; simp at h), ?_, ?_, by trivial⟩
      · intro i hi
        cases i
        · exact stamp_entry_snoc c.events _ _ (hR false hi)
        · exfalso
          simp only [pcOf] at hi
          rcases hi with h | h <;> split_ifs at h <;> omega
      · intro s hs
        have hseq : s = c.store := (Option.some.inj hs).symm
        subst hseq
        rfl
    · by_cases hp1 : c.p2.pc = 1
      · simp only [sweepStep, procStep_pc1 iv c.store c.p2 hp1, if_true,
          Option.map_some', Option.toList_some]
        refine ⟨stampedBefore_snoc c.events _ hA (by intro i h; simp at h), ?_, hS, by trivial⟩
        intro i hi
        cases i
        · exact stamp_entry_snoc c.events _ _ (hR false hi)
        · refine ⟨c.events.length, by simp, ?_⟩
          exact List.getElem?_concat_length c.events _
      · by_cases hp2 : c.p2.pc = 2
        · simp only [sweepStep, procStep_pc2 iv c.store c.p2 hp2, if_true,
            Option.map_some', Option.toList_some]
          refine ⟨?_, ?_, hS, by trivial⟩
          · refine stampedBefore_snoc c.events _ hA ?_
            intro i h
            have hi : i = true := by
              have := congrArg Prod.fst h
              simpa using this.symm
            subst hi
            exact hR true (Or.inl hp2)
          · intro i hi
            cases i
            · exact stamp_entry_snoc c.events _ _ (hR false hi)
            · exact stamp_entry_snoc c.events _ _ (hR true (Or.inl hp2))
        · simp [sweepStep, procStep_other iv c.store c.p2 hp0 hp1 hp2]
          exact ⟨hA, hR, hS⟩

theorem runSweep_inv (iv : ℤ) (sched : List Bool) : ∀ c : SweepConfig,
    stampedBefore c → stampRecorded c → snapDue iv c →
    stampedBefore (runSweep iv c sched) ∧ stampRecorded (runSweep iv c sched) ∧
      snapDue iv (runSweep iv c sched) ∧ (runSweep iv c sched).p2.now = c.p2.now := by
  induction sched with
  | nil => intro c hA hR hS; exact ⟨hA, hR, hS, rfl⟩
  | cons i rest ih =>
    intro c hA hR hS
    obtain ⟨hA', hR', hS', hn'⟩ := sweepStep_inv iv c i hA hR hS
    obtain ⟨hA2, hR2, hS2, hn⟩ := ih (sweepStep iv c i) hA' hR' hS'
    refine ⟨hA2, hR2, hS2, ?_⟩
    show (runSweep iv (sweepStep iv c i) rest).p2.now = c.p2.now
    rw [hn, hn']

/-- C7 (counterexample): the write-then-work ordering does not make a second
overlapping evaluation decline: in the interleaving where both evaluations
read the settings before either writes the stamp, both judge the cycle due
and both start external work. -/
theorem overlapping_sweeps_both_due :
    (runSweep 60 (initialSweep (some 0) 7200000 7200000)
        [false, true, false, false, true, true]).p1.due = some true ∧
    (runSweep 60 (initialSweep (some 0) 7200000 7200000)
        [false, true, false, false, true, true]).p2.due = some true ∧
    (runSweep 60 (initialSweep (some 0) 7200000 7200000)
        [false, true, false, false, true, true]).p1.pc = 3 ∧
    (runSweep 60 (initialSweep (some 0) 7200000 7200000)
        [false, true, false, false, true, true]).p2.pc = 3 := by
  decide

/-- C7 (amended): in every interleaving of two overlapping evaluations, each
evaluation's external work is preceded in the trace by its own stamp write
(the write-then-work ordering of the source); and an overlapping evaluation
that reads the stamped value now1 written by the first declines whenever the
interval schedule is not yet due relative to now1. -/
theorem stamp_order_and_decline (intervalMinutes now1 now2 : ℤ) (lastRun : Option ℤ)
    (sched : List Bool)
    (hdecline : shouldRunInterval (some now1) now2 intervalMinutes = false) :
    stampedBefore (runSweep intervalMinutes (initialSweep lastRun now1 now2) sched) ∧
    ((runSweep intervalMinutes (initialSweep lastRun now1 now2) sched).p2.snap =
        some (some now1) →
      (runSweep intervalMinutes (initialSweep lastRun now1 now2) sched).p2.due =
        some false) := by
  have hA0 : stampedBefore (initialSweep lastRun now1 now2) := by
    intro i k hk
    simp [initialSweep] at hk
  have hR0 : stampRecorded (initialSweep lastRun now1 now2) := by
    intro i hi
    cases i <;> simp [pcOf, initialSweep] at hi
  have hS0 : snapDue intervalMinutes (initialSweep lastRun now1 now2) := by
    intro s hs
    simp [initialSweep] at hs
  obtain ⟨hA, _, hS, hnow⟩ :=
    runSweep_inv intervalMinutes sched (initialSweep lastRun now1 now2) hA0 hR0 hS0
  refine ⟨hA, fun hsnap => ?_⟩
  have hdue := hS (some now1) hsnap
  rw [hnow] at hdue
  have hn2 : (initialSweep lastRun now1 now2).p2.now = now2 := rfl
  rw [hn2, hdecline] at hdue
  exact hdue

/-- C7 (witness): the amended theorem at a concrete interleaving in which
the second evaluation reads after the first evaluation's stamp write: it
observes the stamped value and declines. -/
theorem stamp_order_and_decline_witness :
    shouldRunInterval (some 7200000) 7201000 60 = false ∧
    (runSweep 60 (initialSweep (some 0) 7200000 7201000)
        [false, false, false, true]).p2.snap = some (some 7200000) ∧
    (runSweep 60 (initialSweep (some 0) 7200000 7201000)
        [false, false, false, true]).p2.due = some false := by
  refine ⟨by decide, by decide, ?_⟩
  exact (stamp_order_and_decline 60 7200000 7201000 (some 0) [false, false, false, true]
    (by decide)).2 (by decide)

end Trader
